import Mathlib

/-!
Verification of the evaluation/metrics layer and dataset wrapper of a
video-action-recognition framework (temporal action localization).

The development shallowly embeds:
* the numeric metric functions of the evaluation core
  (`pairwise_temporal_iou`, `top_k_accuracy`,
  `average_recall_at_avg_proposals`); the file
  `mmaction/core/evaluation/accuracy.py` itself is not part of the
  provided sources (only its re-exporting `__init__.py` is), so these
  are modelled from the specification, as marked on each definition;
* the `ActivityNetDataset` wrapper
  (`mmaction/datasets/activitynet_dataset.py`): `_import_ground_truth`,
  `_import_proposals`, `proposals2json`, `dump_results`, `_evaluate`;
* the `VideoAligner` neck (`mmaction/models/necks/video_aligner.py`).

Real numbers of the Python code (times, scores) are modelled as `Rat`;
Python dicts as association lists with overwrite-on-insert semantics;
fallible operations (raising code, out-of-bounds numpy indexing) as
`Except` / `Option`.
-/

set_option linter.unusedVariables false

/-! ## Temporal segments and pairwise temporal IoU -/

/-! ## Model definitions -/

/-- A temporal segment `(t_start, t_end)`. -/
abbrev Segment := Rat × Rat

/-- Modelled from the spec: temporal intersection-over-union of two
`(start, end)` intervals; zero when non-overlapping. -/
def tIoU (a b : Segment) : Rat :=
  let inter := min a.2 b.2 - max a.1 b.1
  let union := max a.2 b.2 - min a.1 b.1
  if inter ≤ 0 then 0 else inter / union

/-- Modelled from the spec: `pairwise_temporal_iou(segments_a, segments_b)`
computes the `|A| × |B|` matrix of temporal IoU values. -/
def pairwise_temporal_iou (segmentsA segmentsB : List Segment) : List (List Rat) :=
  segmentsA.map (fun a => segmentsB.map (fun b => tIoU a b))

/-- Two segments are non-overlapping when one ends before the other starts. -/
def nonOverlapping (a b : Segment) : Prop :=
  a.2 ≤ b.1 ∨ b.2 ≤ a.1

instance (a b : Segment) : Decidable (nonOverlapping a b) := by
  unfold nonOverlapping; infer_instance

/-- Insert `x` into `l` before the first element it is strictly better than
(insertion step of a stable ranking by a boolean comparison). -/
def insertRanked (better : α → α → Bool) (x : α) : List α → List α
  | [] => [x]
  | y :: ys => if better x y then x :: y :: ys else y :: insertRanked better x ys

/-- Stable insertion sort by a boolean comparison (used to rank class
indices by score, and proposals by confidence). -/
def rankBy (better : α → α → Bool) : List α → List α
  | [] => []
  | x :: xs => insertRanked better x (rankBy better xs)

/-- Modelled from the spec: the `k` highest-scoring class indices of one
score row, ties broken by stable sort order. -/
def topLabels (row : List Rat) (k : Nat) : List Nat :=
  (rankBy (fun i j => decide (row.getD j 0 < row.getD i 0))
    (List.range row.length)).take k

/-- Modelled from the spec: `top_k_accuracy(scores, labels, topk)` — for
each `k` in `topk`, the fraction of samples whose true label is among the
`k` highest-scoring classes. -/
def top_k_accuracy (scores : List (List Rat)) (labels : List Nat)
    (topk : List Nat) : List Rat :=
  topk.map (fun k =>
    (((scores.zip labels).countP
        (fun sl => (topLabels sl.1 k).contains sl.2) : Nat) : Rat) /
      (scores.length : Rat))

/-- Ground-truth dict entry value: `(t_start, t_end, label)` rows. -/
abbrev GTRow := Rat × Rat × String

/-- Proposal dict entry value: `(t_start, t_end, score)` rows. -/
abbrev PropRow := Rat × Rat × Rat

/-- Ground-truth mapping: video id to its annotation rows. -/
abbrev GTDict := List (String × List GTRow)

/-- Proposal mapping: video id to its proposal rows. -/
abbrev PropDict := List (String × List PropRow)

/-- Segment of a ground-truth row. -/
def gtSegment (g : GTRow) : Segment := (g.1, g.2.1)

/-- Segment of a proposal row. -/
def propSegment (p : PropRow) : Segment := (p.1, p.2.1)

/-- Confidence score of a proposal row. -/
def propScore (p : PropRow) : Rat := p.2.2

/-- Modelled from the spec: greedy one-to-one assignment of proposals to
ground-truth segments at IoU threshold `thr`. Proposals are scanned in
rank order; each is matched to the first still-unmatched ground truth
whose temporal IoU reaches the threshold. Returns the number of matched
ground truths and the unmatched remainder. -/
def greedyAssign (thr : Rat) : List Segment → List Segment → Nat × List Segment
  | gts, [] => (0, gts)
  | gts, p :: rest =>
    match gts.find? (fun g => decide (thr ≤ tIoU g p)) with
    | some g =>
      let r := greedyAssign thr (gts.erase g) rest
      (r.1 + 1, r.2)
    | none => greedyAssign thr gts rest

/-- Lookup in a string-keyed association list, with a default. -/
def dictLookupD (d : List (String × α)) (k : String) (dflt : α) : α :=
  match d.find? (fun kv => kv.1 == k) with
  | some kv => kv.2
  | none => dflt

/-- Modelled from the spec: proposals of one video ranked by confidence
score (descending, stable) and truncated to the budget `n`, then matched
greedily one-to-one against the video's ground truth at threshold `thr`;
the value is the number of matched ground-truth segments. -/
def videoMatched (thr : Rat) (gts : List GTRow) (props : List PropRow)
    (n : Nat) : Nat :=
  (greedyAssign thr (gts.map gtSegment)
    ((((rankBy (fun p q => decide (propScore q < propScore p)) props).map
        propSegment).take n))).1

/-- Total matched ground truths over all videos at one threshold and budget.
A video id missing from the proposal mapping contributes zero matches. -/
def totalMatched (gt : GTDict) (props : PropDict) (thr : Rat) (n : Nat) : Nat :=
  (gt.map (fun kv => videoMatched thr kv.2 (dictLookupD props kv.1 []) n)).sum

/-- Total number of ground-truth segments. -/
def totalGT (gt : GTDict) : Nat :=
  (gt.map (fun kv => kv.2.length)).sum

/-- Recall at one IoU threshold and one proposal-count budget. -/
def recallAt (gt : GTDict) (props : PropDict) (thr : Rat) (n : Nat) : Rat :=
  (totalMatched gt props thr n : Rat) / (totalGT gt : Rat)

/-- Average recall (mean over the IoU thresholds) at budget `n`. -/
def averageRecallAt (gt : GTDict) (props : PropDict) (thrs : List Rat)
    (n : Nat) : Rat :=
  ((thrs.map (fun thr => recallAt gt props thr n)).sum) / (thrs.length : Rat)

/-- Modelled from the spec:
`average_recall_at_avg_proposals(ground_truth, proposals, num_proposals,
max_avg_proposals, temporal_iou_thresholds)` sweeps proposal-count budgets
`1 .. max_avg_proposals` and the given IoU thresholds, returning the
per-threshold recall matrix (rows = thresholds, columns = budgets), the
average-recall curve over budgets, and its area-under-curve. -/
def average_recall_at_avg_proposals (groundTruth : GTDict)
    (proposals : PropDict) (numProposals : Nat) (maxAvgProposals : Nat)
    (temporalIoUThresholds : List Rat) :
    List (List Rat) × List Rat × Rat :=
  let recallMatrix := temporalIoUThresholds.map (fun thr =>
    (List.range maxAvgProposals).map (fun i =>
      recallAt groundTruth proposals thr (i + 1)))
  let avgRecall := (List.range maxAvgProposals).map (fun i =>
    averageRecallAt groundTruth proposals temporalIoUThresholds (i + 1))
  let auc := avgRecall.sum / (maxAvgProposals : Rat) * 100
  (recallMatrix, avgRecall, auc)

/-- The overall average recall reported for one call: the last point of the
average-recall curve, i.e. the average recall at the full
`max_avg_proposals` budget. -/
def overallAvgRecall (groundTruth : GTDict) (proposals : PropDict)
    (numProposals : Nat) (maxAvgProposals : Nat) (thrs : List Rat) : Rat :=
  ((average_recall_at_avg_proposals groundTruth proposals numProposals
      maxAvgProposals thrs).2.1).getLastD 0

/-- One entry of a record's `annotations` list: a `segment` pair and a
class `label`. -/
structure Annotation where
  segment : Rat × Rat
  label : String
deriving DecidableEq

/-- One record of the dataset (`self.records`): its `video_name` and its
`annotations`. -/
structure VideoRecord where
  video_name : String
  annotations : List Annotation
deriving DecidableEq

/-- One entry of a result's `proposal_list`: a `segment` pair and a
confidence `score`. -/
structure ProposalEntry where
  segment : Rat × Rat
  score : Rat
deriving DecidableEq

/-- One element of the inference `results` list: its `video_name` and its
`proposal_list`. -/
structure ResultItem where
  video_name : String
  proposal_list : List ProposalEntry
deriving DecidableEq

/-- Python-dict insertion on an association list: overwrite in place when
the key is present, append otherwise. -/
def dictInsert (d : List (String × α)) (k : String) (v : α) : List (String × α) :=
  if d.any (fun kv => kv.1 == k) then
    d.map (fun kv => if kv.1 == k then (k, v) else kv)
  else d ++ [(k, v)]

/-- Python-dict lookup on an association list. -/
def dictLookup (d : List (String × α)) (k : String) : Option α :=
  match d.find? (fun kv => kv.1 == k) with
  | some kv => some kv.2
  | none => none

/-- The keys of an association list, in insertion order. -/
def dictKeys (d : List (String × α)) : List String := d.map Prod.fst

/-- The `[t_start, t_end, label]` rows `_import_ground_truth` builds for
one record. -/
def gtRows (r : VideoRecord) : List GTRow :=
  r.annotations.map (fun a => (a.segment.1, a.segment.2, a.label))

/-- The loop of `_import_ground_truth` over the records, with the dict
built so far as accumulator. -/
def importGroundTruthAux (d : GTDict) : List VideoRecord → GTDict
  | [] => d
  | r :: rest =>
    importGroundTruthAux (dictInsert d (r.video_name.drop 2) (gtRows r)) rest

/-- `ActivityNetDataset._import_ground_truth`: maps each record's
`video_name` with its first two characters dropped to that record's
ground-truth rows. -/
def importGroundTruth (records : List VideoRecord) : GTDict :=
  importGroundTruthAux [] records

/-- The `[t_start, t_end, score]` rows `_import_proposals` builds for one
result. -/
def propRows (r : ResultItem) : List PropRow :=
  r.proposal_list.map (fun p => (p.segment.1, p.segment.2, p.score))

/-- The loop of `_import_proposals` over the results, accumulating the
proposal dict and the running proposal count. -/
def importProposalsAux (acc : PropDict × Nat) : List ResultItem → PropDict × Nat
  | [] => acc
  | r :: rest =>
    importProposalsAux
      (dictInsert acc.1 (r.video_name.drop 2) (propRows r),
       acc.2 + r.proposal_list.length) rest

/-- `ActivityNetDataset._import_proposals`: returns the proposal mapping
(keyed by `video_name[2:]`) and the total number of proposal entries. -/
def importProposals (results : List ResultItem) : PropDict × Nat :=
  importProposalsAux ([], 0) results

/-- A JSON value, as produced and re-read by the dump/load library calls. -/
inductive JsonV where
  | null : JsonV
  | num : Rat → JsonV
  | str : String → JsonV
  | arr : List JsonV → JsonV
  | obj : List (String × JsonV) → JsonV

/-- The loop of `proposals2json` over the results. -/
def proposals2jsonAux (d : List (String × List ProposalEntry)) :
    List ResultItem → List (String × List ProposalEntry)
  | [] => d
  | r :: rest =>
    proposals2jsonAux (dictInsert d (r.video_name.drop 2) r.proposal_list) rest

/-- `ActivityNetDataset.proposals2json`: keys each result's
`proposal_list` by its `video_name` with the first two characters
dropped. -/
def proposals2json (results : List ResultItem) : List (String × List ProposalEntry) :=
  proposals2jsonAux [] results

/-- JSON encoding of one proposal dict: `segment` pair and `score`. -/
def proposalToJson (p : ProposalEntry) : JsonV :=
  .obj [("segment", .arr [.num p.segment.1, .num p.segment.2]),
        ("score", .num p.score)]

/-- JSON encoding of a `proposal_list`. -/
def proposalListToJson (ps : List ProposalEntry) : JsonV :=
  .arr (ps.map proposalToJson)

/-- JSON encoding of the `proposals2json` result dict. -/
def resultDictToJson (d : List (String × List ProposalEntry)) : JsonV :=
  .obj (d.map (fun kv => (kv.1, proposalListToJson kv.2)))

/-- A file-system effect of `dump_results`. -/
inductive WriteOp where
  | jsonFile (out : String) (content : JsonV)
  | makeDir (path : String)
  | csvFile (path : String) (header : String)

/-- `ActivityNetDataset.dump_results`: JSON dumps build the
version/results/external_data object and write it to `out`; CSV dumps
create the directory and write one per-video CSV file; any other
`output_format` raises a `ValueError` (modelled as `Except.error`,
carrying no write operations). -/
def dump_results (results : List ResultItem) (out : String)
    (output_format : String) (version : String) :
    Except String (List WriteOp) :=
  if output_format = "json" then
    let result_dict := proposals2json results
    let output_obj := JsonV.obj
      [("version", .str version), ("results", resultDictToJson result_dict),
       ("external_data", .obj [])]
    .ok [.jsonFile out output_obj]
  else if output_format = "csv" then
    .ok (WriteOp.makeDir out ::
      results.map (fun r =>
        WriteOp.csvFile (out ++ "/" ++ r.video_name ++ ".csv")
          "action,start,end,tmin,tmax"))
  else
    .error ("The output format " ++ output_format ++ " is not supported.")

/-- Look up a key of a JSON object. -/
def jsonLookup (j : JsonV) (k : String) : Option JsonV :=
  match j with
  | .obj l =>
    match l.find? (fun kv => kv.1 == k) with
    | some kv => some kv.2
    | none => none
  | _ => none

/-- Parse one proposal from its JSON encoding. -/
def jsonToProposal : JsonV → Option ProposalEntry
  | .obj [("segment", .arr [.num s, .num e]), ("score", .num sc)] =>
    some ⟨(s, e), sc⟩
  | _ => none

/-- Parse a list of proposals from their JSON encodings. -/
def jsonToProposalList : List JsonV → Option (List ProposalEntry)
  | [] => some []
  | j :: rest =>
    match jsonToProposal j, jsonToProposalList rest with
    | some p, some ps => some (p :: ps)
    | _, _ => none

/-- Parse one result-dict value (a JSON array of proposals). -/
def jsonEntryToProposals : JsonV → Option (List ProposalEntry)
  | .arr l => jsonToProposalList l
  | _ => none

/-- Parse the result dict from the entries of a JSON object. -/
def jsonToResultDict : List (String × JsonV) →
    Option (List (String × List ProposalEntry))
  | [] => some []
  | (k, v) :: rest =>
    match jsonEntryToProposals v, jsonToResultDict rest with
    | some ps, some d => some ((k, ps) :: d)
    | _, _ => none

/-- Reload a dumped JSON file: read the value under the `results` key and
parse the video-id to segment/score structure back. -/
def reloadResults (j : JsonV) : Option (List (String × List ProposalEntry)) :=
  match jsonLookup j "results" with
  | some (.obj l) => jsonToResultDict l
  | _ => none

/-- Arithmetic mean of a list (`np.mean`), 0 for the empty list. -/
def listMean (l : List Rat) : Rat := l.sum / (l.length : Rat)

/-- Column `i` of a matrix (`recall[:, i]`): `none` models the numpy
`IndexError` when some row is too short. -/
def column (i : Nat) : List (List Rat) → Option (List Rat)
  | [] => some []
  | row :: rest =>
    match row.get? i, column i rest with
    | some x, some xs => some (x :: xs)
    | _, _ => none

/-- `np.mean(recall[:, i])`, when column `i` is in bounds. -/
def meanColumn (recallMatrix : List (List Rat)) (i : Nat) : Option Rat :=
  (column i recallMatrix).map listMean

/-- The `AR@AN` branch of `_evaluate`: reads columns 0, 4, 9 and 99 of
the recall matrix to report `AR@1`, `AR@5`, `AR@10` and `AR@100`
(together with `auc`); `none` models the out-of-bounds `IndexError`. -/
def evaluateARAN (recallMatrix : List (List Rat)) (auc : Rat) :
    Option (List (String × Rat)) :=
  match meanColumn recallMatrix 0, meanColumn recallMatrix 4,
      meanColumn recallMatrix 9, meanColumn recallMatrix 99 with
  | some a1, some a5, some a10, some a100 =>
    some [("auc", auc), ("AR@1", a1), ("AR@5", a5),
          ("AR@10", a10), ("AR@100", a100)]
  | _, _, _, _ => none

/-- The metric loop of `_evaluate`: only `'AR@AN'` is handled; any other
metric name is silently skipped (the loop body has no `else` branch). -/
def evaluateMetricsLoop (groundTruth : GTDict) (pr : PropDict × Nat)
    (maxAvgProposals : Nat) (thrs : List Rat)
    (acc : List (String × Rat)) :
    List String → Except String (List (String × Rat))
  | [] => .ok acc
  | metric :: rest =>
    if metric = "AR@AN" then
      match evaluateARAN
          (average_recall_at_avg_proposals groundTruth pr.1 pr.2
            maxAvgProposals thrs).1
          (average_recall_at_avg_proposals groundTruth pr.1 pr.2
            maxAvgProposals thrs).2.2 with
      | some entries =>
        evaluateMetricsLoop groundTruth pr maxAvgProposals thrs
          (acc ++ entries) rest
      | none => .error "index 99 is out of bounds"
    else evaluateMetricsLoop groundTruth pr maxAvgProposals thrs acc rest

/-- `ActivityNetDataset._evaluate`: imports ground truth and proposals,
then runs the metric loop over the requested metric names. -/
def ActivityNet_evaluate (records : List VideoRecord)
    (results : List ResultItem) (metrics : List String)
    (maxAvgProposals : Nat) (thrs : List Rat) :
    Except String (List (String × Rat)) :=
  evaluateMetricsLoop (importGroundTruth records) (importProposals results)
    maxAvgProposals thrs [] metrics

/-- The `VideoAligner` neck over an abstract tensor type `T`: its
`training` flag and the tensor operators it composes when computing the
auxiliary temporal embedding (`spatial_pool`, `mapper`, `normalize`). -/
structure VideoAligner (T : Type) where
  training : Bool
  spatial_pool : T → T
  mapper : T → T
  normalize : T → T

/-- The value returned by `VideoAligner.forward`: the bare tensor, or the
tensor together with the `temporal_embd` extra datum. -/
inductive AlignerOut (T : Type) where
  | plain (x : T)
  | withExtra (x : T) (temporal_embd : Option T)

/-- `VideoAligner.forward`: `temporal_embd` is computed (pool, map,
normalize) only when not training; the input `x` itself is returned
unchanged, alone or paired with the extra data. -/
def VideoAligner.forward (m : VideoAligner T) (x : T)
    (return_extra_data : Bool) : AlignerOut T :=
  let temporal_embd : Option T :=
    if m.training then none
    else some (m.normalize (m.mapper (m.spatial_pool x)))
  if return_extra_data then .withExtra x temporal_embd else .plain x

/-- The main output of a forward result. -/
def AlignerOut.mainOut : AlignerOut T → T
  | .plain x => x
  | .withExtra x _ => x

/-! ## Theorems -/

theorem tIoU_self (a : Segment) (h : a.1 < a.2) : tIoU a a = 1 := by
  unfold tIoU
  simp only [min_self, max_self]
  rw [if_neg (by linarith)]
  exact div_self (by linarith)

theorem tIoU_nonOverlapping (a b : Segment) (h : nonOverlapping a b) :
    tIoU a b = 0 := by
  unfold tIoU
  rcases h with h | h
  · rw [if_pos]
    have h1 : min a.2 b.2 ≤ a.2 := min_le_left _ _
    have h2 : b.1 ≤ max a.1 b.1 := le_max_right _ _
    linarith
  · rw [if_pos]
    have h1 : min a.2 b.2 ≤ b.2 := min_le_right _ _
    have h2 : a.1 ≤ max a.1 b.1 := le_max_left _ _
    linarith

theorem pairwise_temporal_iou_entry (A B : List Segment) (i j : Nat)
    (hi : i < A.length) (hj : j < B.length) :
    ∃ hri : i < (pairwise_temporal_iou A B).length,
      ∃ hrj : j < ((pairwise_temporal_iou A B).get ⟨i, hri⟩).length,
        ((pairwise_temporal_iou A B).get ⟨i, hri⟩).get ⟨j, hrj⟩ =
          tIoU (A.get ⟨i, hi⟩) (B.get ⟨j, hj⟩) := by
  refine ⟨by simpa [pairwise_temporal_iou] using hi, ?_, ?_⟩
  · simpa [pairwise_temporal_iou] using hj
  · simp [pairwise_temporal_iou]

/-- C4: `pairwise_temporal_iou` of a set of non-degenerate segments against
itself has 1.0 on the diagonal and 0 on every non-overlapping pair. -/
theorem pairwise_temporal_iou_self_diag_one_and_disjoint_zero
    (segs : List Segment) (hnd : ∀ s ∈ segs, s.1 < s.2) :
    ∀ (i j : Nat) (hi : i < segs.length) (hj : j < segs.length)
      (hri : i < (pairwise_temporal_iou segs segs).length)
      (hrj : j < ((pairwise_temporal_iou segs segs).get ⟨i, hri⟩).length),
      (i = j →
        ((pairwise_temporal_iou segs segs).get ⟨i, hri⟩).get ⟨j, hrj⟩ = 1) ∧
      (nonOverlapping (segs.get ⟨i, hi⟩) (segs.get ⟨j, hj⟩) →
        ((pairwise_temporal_iou segs segs).get ⟨i, hri⟩).get ⟨j, hrj⟩ = 0) := by
  intro i j hi hj hri hrj
  have hentry := pairwise_temporal_iou_entry segs segs i j hi hj
  rcases hentry with ⟨hri', hrj', hval⟩
  have hval' : ((pairwise_temporal_iou segs segs).get ⟨i, hri⟩).get ⟨j, hrj⟩ =
      tIoU (segs.get ⟨i, hi⟩) (segs.get ⟨j, hj⟩) := hval
  constructor
  · intro hij
    subst hij
    rw [hval']
    exact tIoU_self _ (hnd _ (List.get_mem segs i hi))
  · intro hdisj
    rw [hval']
    exact tIoU_nonOverlapping _ _ hdisj

/-- Witness for C4 at a concrete segment list. -/
theorem pairwise_temporal_iou_self_witness :
    (∀ s ∈ [((0 : Rat), (2 : Rat)), ((3 : Rat), (5 : Rat))], s.1 < s.2) ∧
    (((pairwise_temporal_iou [((0 : Rat), 2), (3, 5)] [((0 : Rat), 2), (3, 5)]).get
        ⟨0, by decide⟩).get ⟨0, by decide⟩ = 1) ∧
    (((pairwise_temporal_iou [((0 : Rat), 2), (3, 5)] [((0 : Rat), 2), (3, 5)]).get
        ⟨0, by decide⟩).get ⟨1, by decide⟩ = 0) := by
  refine ⟨by decide, ?_, ?_⟩
  · exact (pairwise_temporal_iou_self_diag_one_and_disjoint_zero
      [((0 : Rat), 2), (3, 5)] (by decide) 0 0 (by decide) (by decide)
      (by decide) (by decide)).1 rfl
  · exact (pairwise_temporal_iou_self_diag_one_and_disjoint_zero
      [((0 : Rat), 2), (3, 5)] (by decide) 0 1 (by decide) (by decide)
      (by decide) (by decide)).2 (by decide)

theorem insertRanked_perm (better : α → α → Bool) (x : α) (l : List α) :
    (insertRanked better x l).Perm (x :: l) := by
  induction l with
  | nil => exact List.Perm.refl _
  | cons y ys ih =>
    unfold insertRanked
    by_cases h : better x y
    · rw [if_pos h]
    · rw [if_neg h]
      exact ((ih.cons y).trans (List.Perm.swap x y ys))

theorem rankBy_perm (better : α → α → Bool) (l : List α) :
    (rankBy better l).Perm l := by
  induction l with
  | nil => exact List.Perm.refl _
  | cons x xs ih =>
    exact (insertRanked_perm better x (rankBy better xs)).trans (ih.cons x)

theorem mem_topLabels_full (row : List Rat) (C : Nat) (label : Nat)
    (hrow : row.length = C) (hlab : label < C) :
    (topLabels row C).contains label = true := by
  unfold topLabels
  have hperm := rankBy_perm (fun i j => decide (row.getD j 0 < row.getD i 0))
    (List.range row.length)
  have hlen : (rankBy (fun i j => decide (row.getD j 0 < row.getD i 0))
      (List.range row.length)).length = C := by
    rw [hperm.length_eq, List.length_range, hrow]
  rw [← hlen, List.take_length]
  have hmem : label ∈ rankBy (fun i j => decide (row.getD j 0 < row.getD i 0))
      (List.range row.length) := by
    rw [hperm.mem_iff, List.mem_range, hrow]
    exact hlab
  simpa [List.contains] using hmem

/-- C3: with `k = num_classes`, `top_k_accuracy` on a non-empty score
matrix with `num_classes` columns and valid labels equals 1.0. -/
theorem top_k_accuracy_full_k (scores : List (List Rat)) (labels : List Nat)
    (C : Nat) (hC : ∀ row ∈ scores, row.length = C)
    (hlab : ∀ l ∈ labels, l < C) (hlen : labels.length = scores.length)
    (hne : scores ≠ []) :
    top_k_accuracy scores labels [C] = [1] := by
  unfold top_k_accuracy
  simp only [List.map_cons, List.map_nil, List.cons.injEq, and_true]
  have hcount : (scores.zip labels).countP
      (fun sl => (topLabels sl.1 C).contains sl.2) = (scores.zip labels).length := by
    rw [List.countP_eq_length]
    intro sl hsl
    have hmem := List.of_mem_zip (a := sl.1) (b := sl.2) (by simpa using hsl)
    exact mem_topLabels_full sl.1 C sl.2 (hC _ hmem.1) (hlab _ hmem.2)
  rw [hcount, List.length_zip, hlen, min_self]
  have hpos : scores.length ≠ 0 := by
    simpa [List.length_eq_zero] using hne
  rw [div_self (by exact_mod_cast hpos)]

/-- Witness for C3 at a concrete score matrix and label vector. -/
theorem top_k_accuracy_full_k_witness :
    top_k_accuracy [[(1 : Rat), 3, 2], [(5 : Rat), 0, 0]] [2, 0] [3] = [1] :=
  top_k_accuracy_full_k [[(1 : Rat), 3, 2], [(5 : Rat), 0, 0]] [2, 0] 3
    (by decide) (by decide) (by decide) (by decide)

theorem greedyAssign_append (thr : Rat) (gts : List Segment)
    (ps qs : List Segment) :
    (greedyAssign thr gts (ps ++ qs)).1 =
      (greedyAssign thr gts ps).1 +
        (greedyAssign thr (greedyAssign thr gts ps).2 qs).1 ∧
    (greedyAssign thr gts (ps ++ qs)).2 =
      (greedyAssign thr (greedyAssign thr gts ps).2 qs).2 := by
  induction ps generalizing gts with
  | nil => simp [greedyAssign]
  | cons p rest ih =>
    simp only [List.cons_append, greedyAssign]
    cases hfind : gts.find? (fun g => decide (thr ≤ tIoU g p)) with
    | none => exact ih gts
    | some g =>
      obtain ⟨ih1, ih2⟩ := ih (gts.erase g)
      simp only [List.append_eq] at ih1 ih2 ⊢
      constructor
      · simp only [ih1, ih2]
        omega
      · simp only [ih2]

theorem greedyAssign_count_le_append (thr : Rat) (gts : List Segment)
    (ps qs : List Segment) :
    (greedyAssign thr gts ps).1 ≤ (greedyAssign thr gts (ps ++ qs)).1 := by
  rw [(greedyAssign_append thr gts ps qs).1]
  exact Nat.le_add_right _ _

theorem greedyAssign_take_mono (thr : Rat) (gts ps : List Segment)
    (n m : Nat) (h : n ≤ m) :
    (greedyAssign thr gts (ps.take n)).1 ≤
      (greedyAssign thr gts (ps.take m)).1 := by
  have hm : n + (m - n) = m := by omega
  calc (greedyAssign thr gts (ps.take n)).1
      ≤ (greedyAssign thr gts (ps.take n ++ (ps.drop n).take (m - n))).1 :=
        greedyAssign_count_le_append _ _ _ _
    _ = (greedyAssign thr gts (ps.take m)).1 := by rw [← List.take_add, hm]

theorem recallAt_mono (gt : GTDict) (props : PropDict) (thr : Rat)
    (n m : Nat) (h : n ≤ m) :
    recallAt gt props thr n ≤ recallAt gt props thr m := by
  unfold recallAt
  apply div_le_div_of_nonneg_right _ (Nat.cast_nonneg _)
  have hmono : totalMatched gt props thr n ≤ totalMatched gt props thr m := by
    unfold totalMatched
    apply List.sum_le_sum
    intro kv _
    unfold videoMatched
    exact greedyAssign_take_mono _ _ _ _ _ h
  exact_mod_cast hmono

theorem averageRecallAt_mono (gt : GTDict) (props : PropDict)
    (thrs : List Rat) (n m : Nat) (h : n ≤ m) :
    averageRecallAt gt props thrs n ≤ averageRecallAt gt props thrs m := by
  unfold averageRecallAt
  apply div_le_div_of_nonneg_right _ (Nat.cast_nonneg _)
  apply List.sum_le_sum
  intro thr _
  exact recallAt_mono gt props thr n m h

theorem recallAt_nonneg (gt : GTDict) (props : PropDict) (thr : Rat)
    (n : Nat) : 0 ≤ recallAt gt props thr n := by
  unfold recallAt
  exact div_nonneg (Nat.cast_nonneg _) (Nat.cast_nonneg _)

theorem averageRecallAt_nonneg (gt : GTDict) (props : PropDict)
    (thrs : List Rat) (n : Nat) : 0 ≤ averageRecallAt gt props thrs n := by
  unfold averageRecallAt
  apply div_nonneg _ (Nat.cast_nonneg _)
  apply List.sum_nonneg
  intro x hx
  rcases List.mem_map.mp hx with ⟨thr, _, rfl⟩
  exact recallAt_nonneg gt props thr n

theorem overallAvgRecall_eq (gt : GTDict) (props : PropDict)
    (np maxAvg : Nat) (thrs : List Rat) :
    overallAvgRecall gt props np maxAvg thrs =
      if maxAvg = 0 then 0 else averageRecallAt gt props thrs maxAvg := by
  unfold overallAvgRecall average_recall_at_avg_proposals
  cases maxAvg with
  | zero => simp
  | succ k =>
    simp only [Nat.succ_ne_zero, if_false]
    rw [List.range_succ, List.map_append]
    simp

/-- C5: for fixed ground truth, proposals, total proposal count and IoU
thresholds, the overall average recall computed by
`average_recall_at_avg_proposals` is monotonically non-decreasing in the
`max_avg_proposals` budget. -/
theorem average_recall_mono_in_max_avg_proposals (gt : GTDict)
    (props : PropDict) (np : Nat) (thrs : List Rat) (b₁ b₂ : Nat)
    (h : b₁ ≤ b₂) :
    overallAvgRecall gt props np b₁ thrs ≤ overallAvgRecall gt props np b₂ thrs := by
  rw [overallAvgRecall_eq, overallAvgRecall_eq]
  rcases Nat.eq_zero_or_pos b₁ with h1 | h1
  · subst h1
    simp only [if_pos rfl]
    rcases Nat.eq_zero_or_pos b₂ with h2 | h2
    · simp [h2]
    · rw [if_neg (show ¬b₂ = 0 by omega)]
      exact averageRecallAt_nonneg _ _ _ _
  · rw [if_neg (show ¬b₁ = 0 by omega), if_neg (show ¬b₂ = 0 by omega)]
    exact averageRecallAt_mono gt props thrs b₁ b₂ h

/-- Witness for C5 at concrete ground truth, proposals and budgets. -/
theorem average_recall_mono_witness :
    overallAvgRecall [("a", [((0 : Rat), 10, "run")])]
        [("a", [((1 : Rat), 9, (9 : Rat) / 10), ((20 : Rat), 30, (1 : Rat) / 2)])]
        2 1 [(1 : Rat) / 2] ≤
      overallAvgRecall [("a", [((0 : Rat), 10, "run")])]
        [("a", [((1 : Rat), 9, (9 : Rat) / 10), ((20 : Rat), 30, (1 : Rat) / 2)])]
        2 2 [(1 : Rat) / 2] :=
  average_recall_mono_in_max_avg_proposals _ _ 2 _ 1 2 (by decide)

theorem mem_dictKeys_dictInsert (d : List (String × α)) (k : String) (v : α)
    (m : String) :
    m ∈ dictKeys (dictInsert d k v) ↔ m ∈ dictKeys d ∨ m = k := by
  unfold dictInsert dictKeys
  by_cases h : d.any (fun kv => kv.1 == k)
  · rw [if_pos h]
    rw [List.any_eq_true] at h
    obtain ⟨kv₀, hkv₀, hkv₀k⟩ := h
    rw [beq_iff_eq] at hkv₀k
    simp only [List.map_map, List.mem_map, Function.comp_def, beq_iff_eq]
    constructor
    · rintro ⟨kv, hkv, hm⟩
      by_cases hk : kv.1 = k
      · right; rw [if_pos hk] at hm; exact hm.symm
      · left; rw [if_neg hk] at hm; exact ⟨kv, hkv, hm⟩
    · rintro (⟨kv, hkv, rfl⟩ | rfl)
      · by_cases hk : kv.1 = k
        · exact ⟨kv, hkv, by rw [if_pos hk]; exact hk.symm⟩
        · exact ⟨kv, hkv, by rw [if_neg hk]⟩
      · exact ⟨kv₀, hkv₀, by rw [if_pos hkv₀k]⟩
  · rw [if_neg h]
    simp [List.map_append]

theorem find_map_overwrite (d : List (String × α)) (k : String) (v : α) :
    (d.map (fun kv => if kv.1 == k then (k, v) else kv)).find?
        (fun kv => kv.1 == k) =
      if d.any (fun kv => kv.1 == k) then some (k, v) else none := by
  induction d with
  | nil => simp
  | cons kv d' ih =>
    by_cases hk : kv.1 = k
    · simp [List.find?, hk]
    · simp only [List.map_cons, List.any_cons]
      rw [if_neg (by simpa using hk)]
      rw [List.find?_cons_of_neg _ (by simpa using hk)]
      rw [ih]
      have hb : (kv.1 == k) = false := by simpa using hk
      simp only [hb, Bool.false_or]

theorem find_map_other (d : List (String × α)) (k k' : String) (v : α)
    (hne : k' ≠ k) :
    (d.map (fun kv => if kv.1 == k' then (k', v) else kv)).find?
        (fun kv => kv.1 == k) =
      d.find? (fun kv => kv.1 == k) := by
  induction d with
  | nil => simp
  | cons kv d' ih =>
    by_cases hk : kv.1 = k'
    · simp only [List.map_cons]
      rw [if_pos (by simpa using hk)]
      rw [List.find?_cons_of_neg _ (by simpa using hne)]
      rw [List.find?_cons_of_neg _ (by simp [hk, hne])]
      exact ih
    · simp only [List.map_cons]
      rw [if_neg (by simpa using hk)]
      by_cases hkk : kv.1 = k
      · rw [List.find?_cons_of_pos _ (by simpa using hkk),
            List.find?_cons_of_pos _ (by simpa using hkk)]
      · rw [List.find?_cons_of_neg _ (by simpa using hkk),
            List.find?_cons_of_neg _ (by simpa using hkk)]
        exact ih

theorem dictLookup_dictInsert_self (d : List (String × α)) (k : String)
    (v : α) : dictLookup (dictInsert d k v) k = some v := by
  unfold dictInsert dictLookup
  by_cases h : d.any (fun kv => kv.1 == k)
  · rw [if_pos h, find_map_overwrite, if_pos h]
  · rw [if_neg h]
    have hnone : d.find? (fun kv => kv.1 == k) = none := by
      rw [List.find?_eq_none]
      intro kv hkv
      intro hcon
      exact h (List.any_eq_true.mpr ⟨kv, hkv, hcon⟩)
    rw [List.find?_append, hnone]
    simp

theorem dictLookup_dictInsert_other (d : List (String × α)) (k k' : String)
    (v : α) (hne : k' ≠ k) :
    dictLookup (dictInsert d k' v) k = dictLookup d k := by
  unfold dictInsert dictLookup
  by_cases h : d.any (fun kv => kv.1 == k')
  · rw [if_pos h, find_map_other _ _ _ _ hne]
  · rw [if_neg h, List.find?_append]
    cases hfd : d.find? (fun kv => kv.1 == k) with
    | some kv => simp
    | none => simp [hne]

theorem mem_dictKeys_importGroundTruthAux (records : List VideoRecord)
    (d : GTDict) (m : String) :
    m ∈ dictKeys (importGroundTruthAux d records) ↔
      m ∈ dictKeys d ∨ ∃ r ∈ records, r.video_name.drop 2 = m := by
  induction records generalizing d with
  | nil => simp [importGroundTruthAux]
  | cons r rest ih =>
    simp only [importGroundTruthAux]
    rw [ih, mem_dictKeys_dictInsert]
    simp only [List.mem_cons]
    constructor
    · rintro ((hd | rfl) | ⟨x, hx, hxm⟩)
      · exact Or.inl hd
      · exact Or.inr ⟨r, Or.inl rfl, rfl⟩
      · exact Or.inr ⟨x, Or.inr hx, hxm⟩
    · rintro (hd | ⟨x, (rfl | hx), hxm⟩)
      · exact Or.inl (Or.inl hd)
      · exact Or.inl (Or.inr hxm.symm)
      · exact Or.inr ⟨x, hx, hxm⟩

theorem mem_dictKeys_importProposalsAux (results : List ResultItem)
    (acc : PropDict × Nat) (m : String) :
    m ∈ dictKeys (importProposalsAux acc results).1 ↔
      m ∈ dictKeys acc.1 ∨ ∃ r ∈ results, r.video_name.drop 2 = m := by
  induction results generalizing acc with
  | nil => simp [importProposalsAux]
  | cons r rest ih =>
    simp only [importProposalsAux]
    rw [ih, mem_dictKeys_dictInsert]
    simp only [List.mem_cons]
    constructor
    · rintro ((hd | rfl) | ⟨x, hx, hxm⟩)
      · exact Or.inl hd
      · exact Or.inr ⟨r, Or.inl rfl, rfl⟩
      · exact Or.inr ⟨x, Or.inr hx, hxm⟩
    · rintro (hd | ⟨x, (rfl | hx), hxm⟩)
      · exact Or.inl (Or.inl hd)
      · exact Or.inl (Or.inr hxm.symm)
      · exact Or.inr ⟨x, hx, hxm⟩

theorem importProposalsAux_count (results : List ResultItem)
    (acc : PropDict × Nat) :
    (importProposalsAux acc results).2 =
      acc.2 + (results.map (fun r => r.proposal_list.length)).sum := by
  induction results generalizing acc with
  | nil => simp [importProposalsAux]
  | cons r rest ih =>
    simp only [importProposalsAux, List.map_cons, List.sum_cons]
    rw [ih]
    omega

theorem importProposalsAux_lookup_skip (results : List ResultItem)
    (acc : PropDict × Nat) (k : String)
    (h : ∀ r ∈ results, r.video_name.drop 2 ≠ k) :
    dictLookup (importProposalsAux acc results).1 k = dictLookup acc.1 k := by
  induction results generalizing acc with
  | nil => rfl
  | cons r rest ih =>
    simp only [importProposalsAux]
    rw [ih _ (fun r' hr' => h r' (List.mem_cons_of_mem _ hr'))]
    exact dictLookup_dictInsert_other _ _ _ _ (h r (List.mem_cons_self _ _))

theorem importProposalsAux_lookup_mem (results : List ResultItem)
    (acc : PropDict × Nat) (r : ResultItem) (hr : r ∈ results)
    (hnodup : (results.map (fun x => x.video_name.drop 2)).Nodup) :
    dictLookup (importProposalsAux acc results).1 (r.video_name.drop 2) =
      some (propRows r) := by
  induction results generalizing acc with
  | nil => cases hr
  | cons x rest ih =>
    simp only [List.map_cons, List.nodup_cons] at hnodup
    rcases List.mem_cons.mp hr with rfl | hr'
    · simp only [importProposalsAux]
      have hskip : ∀ y ∈ rest, y.video_name.drop 2 ≠ r.video_name.drop 2 := by
        intro y hy hcon
        exact hnodup.1 (hcon ▸ List.mem_map_of_mem _ hy)
      rw [importProposalsAux_lookup_skip rest _ _ hskip]
      exact dictLookup_dictInsert_self _ _ _
    · simp only [importProposalsAux]
      exact ih _ hr' hnodup.2

/-- C7: when the records and the results carry the same set of
`video_name` strings, `_import_ground_truth` and `_import_proposals`
produce mappings with identical key sets (both key by `video_name[2:]`). -/
theorem ground_truth_proposal_key_sets_match (records : List VideoRecord)
    (results : List ResultItem)
    (h : (records.map VideoRecord.video_name).toFinset =
      (results.map ResultItem.video_name).toFinset) :
    (dictKeys (importGroundTruth records)).toFinset =
      (dictKeys (importProposals results).1).toFinset := by
  ext m
  simp only [List.mem_toFinset]
  rw [importGroundTruth, mem_dictKeys_importGroundTruthAux,
    importProposals, mem_dictKeys_importProposalsAux]
  simp only [dictKeys, List.map_nil, List.not_mem_nil, false_or]
  have hnames : ∀ n : String, n ∈ records.map VideoRecord.video_name ↔
      n ∈ results.map ResultItem.video_name := by
    intro n
    rw [← List.mem_toFinset, h, List.mem_toFinset]
  constructor
  · rintro ⟨r, hr, hm⟩
    have : r.video_name ∈ results.map ResultItem.video_name :=
      (hnames _).mp (List.mem_map_of_mem _ hr)
    rcases List.mem_map.mp this with ⟨x, hx, hxn⟩
    exact ⟨x, hx, by rw [hxn, hm]⟩
  · rintro ⟨x, hx, hm⟩
    have : x.video_name ∈ records.map VideoRecord.video_name :=
      (hnames _).mpr (List.mem_map_of_mem _ hx)
    rcases List.mem_map.mp this with ⟨r, hr, hrn⟩
    exact ⟨r, hr, by rw [hrn, hm]⟩

/-- Witness for C7 at concrete records and results sharing a name set. -/
theorem ground_truth_proposal_key_sets_witness :
    (dictKeys (importGroundTruth [⟨"v_x", []⟩, ⟨"v_y", []⟩])).toFinset =
      (dictKeys (importProposals [⟨"v_y", []⟩, ⟨"v_x", []⟩]).1).toFinset :=
  ground_truth_proposal_key_sets_match _ _ (by decide)

/-- Counterexample for C8 as stated: with two results sharing a
`video_name`, the proposal mapping does not send the first result's video
id to that result's triples (the second result overwrote them). -/
theorem importProposals_claim_counterexample :
    dictLookup (importProposals
        [⟨"v_a", [⟨((0 : Rat), 1), 1⟩]⟩,
         ⟨"v_a", [⟨((2 : Rat), 3), (1 : Rat) / 2⟩]⟩]).1 ("v_a".drop 2) ≠
      some (propRows ⟨"v_a", [⟨((0 : Rat), 1), 1⟩]⟩) := by
  decide

/-- C8 (amended): `_import_proposals` returns the total number of proposal
entries summed over all results, and — provided the derived video ids are
pairwise distinct — maps each result's video id to exactly its
`(t_start, t_end, score)` triples in order. -/
theorem importProposals_spec (results : List ResultItem) :
    (importProposals results).2 =
      (results.map (fun r => r.proposal_list.length)).sum ∧
    ((results.map (fun r => r.video_name.drop 2)).Nodup →
      ∀ r ∈ results,
        dictLookup (importProposals results).1 (r.video_name.drop 2) =
          some (propRows r)) := by
  constructor
  · rw [importProposals, importProposalsAux_count]
    simp
  · intro hnodup r hr
    exact importProposalsAux_lookup_mem results ([], 0) r hr hnodup

/-- Witness for C8 at a concrete results list with distinct video ids. -/
theorem importProposals_spec_witness :
    (importProposals [⟨"v_a", [⟨((0 : Rat), 1), 1⟩]⟩, ⟨"v_b", []⟩]).2 = 1 ∧
    dictLookup (importProposals
        [⟨"v_a", [⟨((0 : Rat), 1), 1⟩]⟩, ⟨"v_b", []⟩]).1 ("v_a".drop 2) =
      some [((0 : Rat), 1, 1)] := by
  refine ⟨?_, ?_⟩
  · rw [(importProposals_spec _).1]
    decide
  · rw [(importProposals_spec
      [⟨"v_a", [⟨((0 : Rat), 1), 1⟩]⟩, ⟨"v_b", []⟩]).2 (by decide)
      ⟨"v_a", [⟨((0 : Rat), 1), 1⟩]⟩ (by decide)]
    decide

theorem jsonToProposal_roundtrip (p : ProposalEntry) :
    jsonToProposal (proposalToJson p) = some p := by
  cases p with
  | mk seg score => cases seg; rfl

theorem jsonToProposalList_roundtrip (ps : List ProposalEntry) :
    jsonToProposalList (ps.map proposalToJson) = some ps := by
  induction ps with
  | nil => rfl
  | cons p rest ih =>
    simp only [List.map_cons, jsonToProposalList, jsonToProposal_roundtrip, ih]

theorem jsonToResultDict_roundtrip (d : List (String × List ProposalEntry)) :
    jsonToResultDict (d.map (fun kv => (kv.1, proposalListToJson kv.2))) =
      some d := by
  induction d with
  | nil => rfl
  | cons kv rest ih =>
    simp only [proposalListToJson] at ih
    simp only [List.map_cons, jsonToResultDict, jsonEntryToProposals,
      proposalListToJson, jsonToProposalList_roundtrip, ih]

/-- C6: dumping proposals with `output_format='json'` writes a single JSON
object whose `results` entry, when reloaded, is exactly the video-id to
segment/score structure `proposals2json` produced from the results. -/
theorem dump_json_reload_roundtrip (results : List ResultItem)
    (out version : String) :
    ∃ content, dump_results results out "json" version =
        .ok [WriteOp.jsonFile out content] ∧
      reloadResults content = some (proposals2json results) := by
  refine ⟨_, rfl, ?_⟩
  show reloadResults (JsonV.obj
    [("version", .str version),
     ("results", resultDictToJson (proposals2json results)),
     ("external_data", .obj [])]) = some (proposals2json results)
  have hstep : reloadResults (JsonV.obj
      [("version", .str version),
       ("results", resultDictToJson (proposals2json results)),
       ("external_data", .obj [])]) =
      jsonToResultDict ((proposals2json results).map
        (fun kv => (kv.1, proposalListToJson kv.2))) := rfl
  rw [hstep, jsonToResultDict_roundtrip]

/-- C2: `dump_results` raises the unsupported-value error (and performs no
writes) exactly on output formats other than `json` and `csv`; for those
two it returns normally. -/
theorem dump_results_format_check (results : List ResultItem)
    (out fmt version : String) :
    (fmt ≠ "json" → fmt ≠ "csv" →
      dump_results results out fmt version =
        .error ("The output format " ++ fmt ++ " is not supported.")) ∧
    (fmt = "json" ∨ fmt = "csv" →
      ∃ ws, dump_results results out fmt version = .ok ws) := by
  constructor
  · intro hj hc
    unfold dump_results
    rw [if_neg hj, if_neg hc]
  · rintro (rfl | rfl)
    · exact ⟨_, rfl⟩
    · exact ⟨_, rfl⟩

/-- Witness for C2 at the concrete formats `xml` and `json`. -/
theorem dump_results_format_witness :
    dump_results [] "out" "xml" "VERSION 1.3" =
      .error ("The output format " ++ "xml" ++ " is not supported.") ∧
    ∃ ws, dump_results [] "out" "json" "VERSION 1.3" = .ok ws :=
  ⟨(dump_results_format_check [] "out" "xml" "VERSION 1.3").1
      (by decide) (by decide),
   (dump_results_format_check [] "out" "json" "VERSION 1.3").2 (Or.inl rfl)⟩

theorem evaluateMetricsLoop_no_aran (groundTruth : GTDict)
    (pr : PropDict × Nat) (maxAvg : Nat) (thrs : List Rat)
    (acc : List (String × Rat)) (metrics : List String)
    (h : ∀ m ∈ metrics, m ≠ "AR@AN") :
    evaluateMetricsLoop groundTruth pr maxAvg thrs acc metrics = .ok acc := by
  induction metrics with
  | nil => rfl
  | cons m rest ih =>
    simp only [evaluateMetricsLoop]
    rw [if_neg (h m (List.mem_cons_self _ _))]
    exact ih (fun m' hm' => h m' (List.mem_cons_of_mem _ hm'))

/-- Counterexample for C1 as stated: a call to `_evaluate` whose metrics
sequence holds only the unsupported name `top_k_accuracy` returns
normally (with an empty result mapping) instead of failing. -/
theorem evaluate_unsupported_metric_counterexample :
    ActivityNet_evaluate [] [] ["top_k_accuracy"] 100 [] =
      .ok ([] : List (String × Rat)) := rfl

/-- C1 (amended): `_evaluate` raises no unsupported-metric error itself:
every metric name other than `'AR@AN'` is silently skipped, and a call
whose metrics sequence holds no `'AR@AN'` returns normally with an empty
result mapping (the `allowed_metrics` check lives outside `_evaluate`). -/
theorem evaluate_skips_unsupported_metrics (records : List VideoRecord)
    (results : List ResultItem) (metrics : List String)
    (maxAvg : Nat) (thrs : List Rat) (h : "AR@AN" ∉ metrics) :
    ActivityNet_evaluate records results metrics maxAvg thrs =
      .ok ([] : List (String × Rat)) := by
  unfold ActivityNet_evaluate
  exact evaluateMetricsLoop_no_aran _ _ _ _ _ _
    (fun m hm heq => h (heq ▸ hm))

/-- Witness for C1 (amended) at a concrete metrics sequence. -/
theorem evaluate_skips_unsupported_metrics_witness :
    ActivityNet_evaluate [] [] ["mean_class_accuracy", "mAP"] 100 [] =
      .ok ([] : List (String × Rat)) :=
  evaluate_skips_unsupported_metrics [] [] ["mean_class_accuracy", "mAP"]
    100 [] (by decide)

theorem column_isSome_iff (i : Nat) (m : List (List Rat)) :
    (column i m).isSome ↔ ∀ row ∈ m, i < row.length := by
  induction m with
  | nil => simp [column]
  | cons row rest ih =>
    simp only [column, List.mem_cons]
    cases hget : row.get? i with
    | none =>
      have hlen : row.length ≤ i := List.get?_eq_none.mp hget
      cases hcol : column i rest with
      | none =>
        constructor
        · intro h; simp at h
        · intro h; exact absurd (h row (Or.inl rfl)) (by omega)
      | some xs =>
        constructor
        · intro h; simp at h
        · intro h; exact absurd (h row (Or.inl rfl)) (by omega)
    | some x =>
      have hlt : i < row.length := by
        by_contra hcon
        rw [List.get?_eq_none.mpr (by omega)] at hget
        cases hget
      cases hcol : column i rest with
      | none =>
        rw [hcol] at ih
        constructor
        · intro h; simp at h
        · intro h
          have : ∀ r ∈ rest, i < r.length := fun r hr => h r (Or.inr hr)
          rw [← ih] at this
          simp at this
      | some xs =>
        rw [hcol] at ih
        constructor
        · intro _
          intro r hr
          rcases hr with rfl | hr
          · exact hlt
          · exact (ih.mp (by simp)) r hr
        · intro _; simp

/-- C10: the `AR@AN` branch of `_evaluate` reads columns 0, 4, 9 and 99
of the recall matrix; for a non-empty rectangular matrix of width `w`
that indexing is in bounds — and the branch returns a value instead of
an `IndexError` — exactly when `w ≥ 100` (as under the default
`max_avg_proposals = 100`). -/
theorem evaluateARAN_in_bounds_iff (recallMatrix : List (List Rat))
    (auc : Rat) (w : Nat) (hrect : ∀ row ∈ recallMatrix, row.length = w)
    (hne : recallMatrix ≠ []) :
    (evaluateARAN recallMatrix auc).isSome ↔ 100 ≤ w := by
  have hsplit : (evaluateARAN recallMatrix auc).isSome ↔
      (column 0 recallMatrix).isSome ∧ (column 4 recallMatrix).isSome ∧
      (column 9 recallMatrix).isSome ∧ (column 99 recallMatrix).isSome := by
    unfold evaluateARAN meanColumn
    cases column 0 recallMatrix <;> cases column 4 recallMatrix <;>
      cases column 9 recallMatrix <;> cases column 99 recallMatrix <;> simp
  rw [hsplit, column_isSome_iff, column_isSome_iff, column_isSome_iff,
    column_isSome_iff]
  obtain ⟨row₀, rest, rfl⟩ : ∃ r t, recallMatrix = r :: t := by
    cases recallMatrix with
    | nil => exact absurd rfl hne
    | cons a b => exact ⟨a, b, rfl⟩
  constructor
  · rintro ⟨h0, h4, h9, h99⟩
    have h1 := h99 row₀ (List.mem_cons_self _ _)
    have h2 := hrect row₀ (List.mem_cons_self _ _)
    omega
  · intro hw
    refine ⟨?_, ?_, ?_, ?_⟩ <;>
      · intro row hrow
        have := hrect row hrow
        omega

/-- Witness for C10: a 1 × 100 recall matrix is wide enough. -/
theorem evaluateARAN_in_bounds_witness :
    ((evaluateARAN [List.replicate 100 (0 : Rat)] 0).isSome ↔ 100 ≤ 100) :=
  evaluateARAN_in_bounds_iff [List.replicate 100 (0 : Rat)] 0 100
    (by simp) (by simp)

/-- C9: `VideoAligner.forward` returns its input unchanged as the main
output in both modes, and in training mode the `temporal_embd` extra
datum is `None`. -/
theorem videoAligner_forward_identity {T : Type} (m : VideoAligner T)
    (x : T) :
    (m.forward x false = .plain x) ∧
    (∃ e, m.forward x true = .withExtra x e) ∧
    (m.training = true → m.forward x true = .withExtra x none) := by
  refine ⟨rfl, ⟨_, rfl⟩, ?_⟩
  intro htrain
  unfold VideoAligner.forward
  rw [htrain]
  rfl

/-- Witness for C9 at a concrete module in training mode. -/
theorem videoAligner_forward_witness :
    VideoAligner.forward ⟨true, id, id, id⟩ (0 : Nat) true =
      .withExtra 0 none :=
  (videoAligner_forward_identity ⟨true, id, id, id⟩ (0 : Nat)).2.2 rfl

/-- Counterexample for C3 as stated: on the empty score matrix (zero
samples) the fraction of hits is 0/0 — `nan` under numpy, 0 in this
model — not 1.0, so the universal claim fails without a non-emptiness
hypothesis. -/
theorem top_k_accuracy_empty_counterexample :
    top_k_accuracy [] [] [3] ≠ [1] := by
  have h : top_k_accuracy [] [] [3] = [0] := by
    simp [top_k_accuracy]
  rw [h]
  simp
